import Mathlib

/-!
# Verification of the bq-client query/decode core

Shallow embedding of `github.com/sk88ks/bq-client`.  The repository holds two
revisions of the client: `src/client.go` (the `Client.Query` /
`retrieveRows` / `Convert` / `convertExpornent` variant) and a later revision
embedded in `src/client_test.go` (the `Query.Execute` / `retrieveRows` /
`Convert` variant that closes its receiver channel and checks the schema
length).  Definitions below are translated from those sources; Go `float64`
arithmetic is modelled exactly as IEEE-754 binary64 values represented by an
integer significand and a power-of-two exponent, so that every definition is
executable by kernel reduction.
-/

set_option synthInstance.maxSize 4000

namespace BqClient

/-! ## IEEE-754 binary64 model

A Go `float64` in the normal range is `m * 2^e` with `2^52 ≤ |m| < 2^53`.
The model covers the values reached in this development (normal, finite);
infinities, NaNs and subnormals are outside the claims proved here and are
noted where a Go branch would produce them. -/

/-- A binary floating-point value `m * 2^e` (sign carried by `m`). -/
structure FP where
  m : ℤ
  e : ℤ
  deriving DecidableEq, Repr

/-- `⌊log₂ (num/den)⌋` for a positive fraction, by fuel recursion so the
kernel can evaluate it.  Fuel 4400 covers the full double range. -/
def log2Frac (fuel : ℕ) (num den : ℤ) : ℤ :=
  match fuel with
  | 0 => 0
  | f + 1 =>
    if 2 * den ≤ num then log2Frac f num (2 * den) + 1
    else if num < den then log2Frac f (2 * num) den - 1
    else 0

/-- Round the fraction `num/den` (`den > 0`) to the nearest integer,
ties to even — the IEEE-754 default rounding. -/
def roundNEFrac (num den : ℤ) : ℤ :=
  let q := Int.fdiv num den
  let r := num - q * den
  if 2 * r < den then q
  else if den < 2 * r then q + 1
  else if q % 2 = 0 then q else q + 1

/-- Round the exact fraction `num/den` (`den > 0`) to a binary float with
`prec` significand bits, nearest-even. `prec = 53` is Go `float64`,
`prec = 24` is Go `float32`. -/
def toFPFrac (prec : ℕ) (num den : ℤ) : FP :=
  if num = 0 then ⟨0, 0⟩
  else
    let s : ℤ := if num < 0 then -1 else 1
    let a := s * num
    let k := log2Frac 4400 a den
    let shift : ℤ := (prec - 1 : ℤ) - k
    let m :=
      if 0 ≤ shift then roundNEFrac (a * 2 ^ shift.toNat) den
      else roundNEFrac a (den * 2 ^ (-shift).toNat)
    if m = 2 ^ prec then ⟨s * 2 ^ (prec - 1), k + 1 - (prec - 1 : ℤ)⟩
    else ⟨s * m, k - (prec - 1 : ℤ)⟩

/-- Nearest `float64` of an exact fraction (correctly rounded, as
`strconv.ParseFloat` is). -/
def toFP64 (num den : ℤ) : FP := toFPFrac 53 num den

/-- Nearest `float32` of an exact fraction (Go `float64`→`float32`
conversion / `reflect.Value.SetFloat` on a `float32` field). -/
def toFP32 (num den : ℤ) : FP := toFPFrac 24 num den

/-- Go `float32(x)` for a `float64` `x`: reround the value to 24 bits. -/
def fpToF32 (r : FP) : FP :=
  if 0 ≤ r.e then toFP32 (r.m * 2 ^ r.e.toNat) 1 else toFP32 r.m (2 ^ (-r.e).toNat)

/-- Go `float64` multiplication: exact product, rerounded to 53 bits. -/
def fmul (a b : FP) : FP :=
  let p := a.m * b.m
  let e := a.e + b.e
  if 0 ≤ e then toFP64 (p * 2 ^ e.toNat) 1
  else toFP64 p (2 ^ (-e).toNat)

/-- Go `float64` division (divisor nonzero in every use below): exact
quotient as a fraction, rerounded to 53 bits. -/
def fdivFP (a b : FP) : FP :=
  let sb : ℤ := if b.m < 0 then -1 else 1
  let num0 := a.m * sb
  let den0 := b.m * sb
  let e := a.e - b.e
  if 0 ≤ e then toFP64 (num0 * 2 ^ e.toNat) den0
  else toFP64 num0 (den0 * 2 ^ (-e).toNat)

/-- Go `int64(x)` for a `float64` `x`: truncation toward zero.  (For values
out of the `int64` range the Go result is platform-specific; no claim below
reaches that case.) -/
def int64OfFP (a : FP) : ℤ :=
  if 0 ≤ a.e then a.m * 2 ^ a.e.toNat
  else
    let d : ℤ := 2 ^ (-a.e).toNat
    let s : ℤ := if a.m < 0 then -1 else 1
    s * Int.fdiv (s * a.m) d

/-- `math.Pow10`'s table `pow10tab` as built by the Go-1.x `init` loop of
the repository's vintage: `pow10tab[0]=1e0`, `pow10tab[1]=1e1`, and
`pow10tab[i] = pow10tab[i/2] * pow10tab[i-i/2]` in `float64` arithmetic.
Fuel recursion (depth is logarithmic). -/
def pow10tabGo (fuel : ℕ) (i : ℕ) : FP :=
  match fuel with
  | 0 => ⟨0, 0⟩
  | f + 1 =>
    if i = 0 then toFP64 1 1
    else if i = 1 then toFP64 10 1
    else fmul (pow10tabGo f (i / 2)) (pow10tabGo f (i - i / 2))

/-- `math.Pow10(e)` (Go 1.x of the repository's vintage):
`e ≤ -325 → 0`; `e > 309 → +Inf` (outside this finite model, returned as 0
and unreached by every claim below); `e < 0 → 1 / Pow10(-e)`;
small `e` from the table, large `e` by splitting.  Fuel recursion. -/
def mathPow10 (fuel : ℕ) (e : ℤ) : FP :=
  match fuel with
  | 0 => ⟨0, 0⟩
  | f + 1 =>
    if e ≤ -325 then ⟨0, 0⟩
    else if 309 < e then ⟨0, 0⟩
    else if e < 0 then fdivFP (toFP64 1 1) (mathPow10 f (-e))
    else if e < 70 then pow10tabGo 70 e.toNat
    else fmul (mathPow10 f (e / 2)) (mathPow10 f (e - e / 2))

/-! ## Go standard-library string/number helpers -/

/-- ASCII digit test. -/
def isDigit (c : Char) : Bool := decide ('0' ≤ c) && decide (c ≤ '9')

/-- Value of one ASCII digit. -/
def digitVal (c : Char) : ℤ := (c.toNat : ℤ) - ('0'.toNat : ℤ)

/-- Base-10 value of a digit list. -/
def digitsToInt (s : List Char) : ℤ :=
  s.foldl (fun acc c => 10 * acc + digitVal c) 0

/-- Errors of the embedded code.  Each constructor names the Go error it
stands for: `notPointer` = "Not pointer", `invalidResultElement` =
"Invalid result element", `invalidFields` = "Invalid fields" (the later
`Convert` revision only), `invalidElementType` = "Invalid elememt type",
`invalidTimestampFormat` = "Invalid timestamp format", `numSyntax` /
`numRange` = `strconv.ErrSyntax` / `strconv.ErrRange`. -/
inductive ConvErr
  | notPointer
  | invalidResultElement
  | invalidFields
  | invalidElementType
  | invalidTimestampFormat
  | numSyntax
  | numRange
  deriving DecidableEq, Repr

/-- `strconv.ParseInt(s, 10, 64)` (also `strconv.Atoi`, since `int` is 64
bits on the supported targets): optional sign, non-empty digit string,
64-bit range check. -/
def parseInt64 (s : List Char) : Except ConvErr ℤ :=
  let (sign, digits) :=
    match s with
    | '-' :: t => ((-1 : ℤ), t)
    | '+' :: t => ((1 : ℤ), t)
    | t => ((1 : ℤ), t)
  if digits = [] then .error .numSyntax
  else if !digits.all isDigit then .error .numSyntax
  else
    let v := sign * digitsToInt digits
    if v < -(2 ^ 63) then .error .numRange
    else if 2 ^ 63 - 1 < v then .error .numRange
    else .ok v

/-- `strconv.ParseFloat(s, 64)` on the decimal subset reached by this code:
optional sign, digits with at most one dot, at least one digit.  (The
lowercase-exponent, hex and inf/nan forms `ParseFloat` also accepts are not
produced by the bigquery wire format handled here and are outside the
model.)  The value is the correctly rounded nearest `float64`, which is
what `ParseFloat` returns. -/
def parseFloat64 (s : List Char) : Except ConvErr FP :=
  let (sign, rest) :=
    match s with
    | '-' :: t => ((-1 : ℤ), t)
    | '+' :: t => ((1 : ℤ), t)
    | t => ((1 : ℤ), t)
  let intPart := rest.takeWhile isDigit
  let rest2 := rest.drop intPart.length
  match rest2 with
  | [] =>
    if intPart = [] then .error .numSyntax
    else .ok (toFP64 (sign * digitsToInt intPart) 1)
  | '.' :: frac =>
    if !frac.all isDigit then .error .numSyntax
    else if intPart = [] ∧ frac = [] then .error .numSyntax
    else .ok (toFP64 (sign * digitsToInt (intPart ++ frac)) (10 ^ frac.length))
  | _ => .error .numSyntax

/-- `strings.LastIndex(s, string(c))` for a one-character separator:
index of the last occurrence, `none` when absent (Go returns -1). -/
def lastIdx (c : Char) : List Char → Option ℕ
  | [] => none
  | a :: t =>
    match lastIdx c t with
    | some j => some (j + 1)
    | none => if a = c then some 0 else none

/-! ## `convertExpornent` (src/client.go lines 414-434; identical in both
revisions) -/

/-- `convertExpornent(ex)`: last `E` must exist, a `.` must occur before it,
the suffix is `Atoi`-parsed (failure → "Invalid timestamp format"), the
mantissa is `ParseFloat`-parsed (its error returned as is), and the result
is `int64(base * math.Pow10(e))` in `float64` arithmetic. -/
def convertExpornent (ex : List Char) : Except ConvErr ℤ :=
  match lastIdx 'E' ex with
  | none => .error .invalidTimestampFormat
  | some eIndex =>
    match lastIdx '.' (ex.take eIndex) with
    | none => .error .invalidTimestampFormat
    | some _ =>
      match parseInt64 (ex.drop (eIndex + 1)) with
      | .error _ => .error .invalidTimestampFormat
      | .ok e =>
        match parseFloat64 (ex.take eIndex) with
        | .error err => .error err
        | .ok base => .ok (int64OfFP (fmul base (mathPow10 20 e)))

deriving instance DecidableEq for Except

/-! ## The `Convert` decoder

`Convert(fields, rows, result)` fills the slice pointed to by `result`
with one struct per table row.  The destination element type is modelled
by the ordered list of its field kinds; a decoded struct is the ordered
list of its field values.  The leading `reflect` check ("Not pointer") is
enforced by these types and is not part of the claims. -/

/-- `reflect.Kind` of a destination struct field, restricted to the kinds
the decoder inspects. -/
inductive Kind
  | int | int8 | int16 | int32 | int64
  | float32 | float64
  | string | bool
  deriving DecidableEq, Repr

/-- A destination field value. -/
inductive Value
  | vInt (n : ℤ)
  | vFloat (x : FP)
  | vString (s : List Char)
  | vBool (b : Bool)
  deriving DecidableEq, Repr

/-- The zero value a freshly `reflect.New`-allocated field holds. -/
def zeroValue : Kind → Value
  | .int | .int8 | .int16 | .int32 | .int64 => .vInt 0
  | .float32 | .float64 => .vFloat ⟨0, 0⟩
  | .string => .vString []
  | .bool => .vBool false

/-- Bit width used by `reflect.Value.SetInt` for each integer kind
(Go `int` is 64 bits on the supported targets). -/
def kindBits : Kind → ℕ
  | .int8 => 8
  | .int16 => 16
  | .int32 => 32
  | _ => 64

/-- Two-complement wrap of `v` into `w` signed bits — what
`reflect.Value.SetInt` does when the value exceeds the field width. -/
def wrapSigned (w : ℕ) (v : ℤ) : ℤ :=
  (v + 2 ^ (w - 1)) % 2 ^ w - 2 ^ (w - 1)

/-- One schema entry: only the `Type` string is inspected by `Convert`. -/
structure TableFieldSchema where
  ftype : String
  deriving DecidableEq, Repr

/-- One cell (`bigquery.TableCell`): `V` is an interface value; the decoder
only distinguishes "holds a string" (`some`) from nil/non-string (`none`,
where the `V.(string)` assertion fails and the cell is skipped). -/
abbrev Cell := Option (List Char)

/-- One `bigquery.TableRow`: its `F` cell list. -/
abbrev TableRow := List Cell

/-- A decoded destination struct: values of its fields, in order. -/
abbrev Rec := List Value

/-- Outcome of running (a part of) `Convert`: a value, a returned Go
`error` (the caller's destination slice is unchanged, since the final
`resultV.Elem().Set` is only executed on the success path), or a Go
runtime panic (`index out of range` on the `fields[j]` lookup). -/
inductive ConvResult (α : Type)
  | ok (a : α)
  | fail (e : ConvErr)
  | panic
  deriving DecidableEq, Repr

/-- The `switch fields[j].Type` / inner `switch elemF.Kind()` dispatch of
`src/client.go` lines 352-405, for one non-nil cell.  Any combination in
which no `case` sets the field leaves `isSet == false` and yields
"Invalid elememt type".  Note the `INTEGER` branch lists
`reflect.Int, Int8, Int16, Int64` — `Int32` is absent in the source. -/
def convertDispatch (ftype : String) (k : Kind) (record : List Char) : ConvResult Value :=
  if ftype = "STRING" then
    match k with
    | .string => .ok (.vString record)
    | _ => .fail .invalidElementType
  else if ftype = "INTEGER" then
    match k with
    | .int | .int8 | .int16 | .int64 =>
      match parseInt64 record with
      | .error e => .fail e
      | .ok r => .ok (.vInt (wrapSigned (kindBits k) r))
    | _ => .fail .invalidElementType
  else if ftype = "FLOAT" then
    match k with
    | .float32 =>
      match parseFloat64 record with
      | .error e => .fail e
      | .ok r => .ok (.vFloat (fpToF32 r))
    | .float64 =>
      match parseFloat64 record with
      | .error e => .fail e
      | .ok r => .ok (.vFloat r)
    | _ => .fail .invalidElementType
  else if ftype = "TIMESTAMP" then
    match k with
    | .int64 =>
      match convertExpornent record with
      | .error e => .fail e
      | .ok r => .ok (.vInt (wrapSigned 64 r))
    | _ => .fail .invalidElementType
  else if ftype = "BOOLEAN" then
    match k with
    | .bool => .ok (.vBool (record == "true".toList || record == "1".toList))
    | _ => .fail .invalidElementType
  else
    -- RECORD (commented out in the source) and every other type string:
    -- no case matches, isSet stays false.
    .fail .invalidElementType

/-- One iteration of the inner cell loop (index `j`): a nil/non-string
cell is skipped by `continue` — the field keeps its zero value — BEFORE
`fields[j]` is ever read; a string cell reads `fields[j]` (out of range
panics) and dispatches on its type. -/
def convertCell (fields : List TableFieldSchema) (j : ℕ) (k : Kind) (cell : Cell) :
    ConvResult Value :=
  match cell with
  | none => .ok (zeroValue k)
  | some record =>
    match fields.get? j with
    | none => .panic
    | some f => convertDispatch f.ftype k record

/-- The inner loop over the cells of one row, `j` ascending, first error
aborting.  The kinds/cells are pre-zipped by the caller, which has already
checked that the row's cell count equals the struct's field count. -/
def convertRowAux (fields : List TableFieldSchema) :
    ℕ → List (Kind × Cell) → ConvResult Rec
  | _, [] => .ok []
  | j, (k, c) :: rest =>
    match convertCell fields j k c with
    | .ok v =>
      match convertRowAux fields (j + 1) rest with
      | .ok vs => .ok (v :: vs)
      | .fail e => .fail e
      | .panic => .panic
    | .fail e => .fail e
    | .panic => .panic

/-- Decode one row into a fresh zero struct. -/
def convertRow (fields : List TableFieldSchema) (shape : List Kind) (row : TableRow) :
    ConvResult Rec :=
  convertRowAux fields 0 (shape.zip row)

/-- The outer row loop of `src/client.go` `Convert` (lines 339-409):
per row, the `elemT.NumField() != len(rows[i].F)` check ("Invalid result
element"), then the cell loop; decoded structs are appended in order. -/
def convertRows (fields : List TableFieldSchema) (shape : List Kind) :
    List TableRow → ConvResult (List Rec)
  | [] => .ok []
  | row :: rest =>
    if shape.length ≠ row.length then .fail .invalidResultElement
    else
      match convertRow fields shape row with
      | .ok rec =>
        match convertRows fields shape rest with
        | .ok recs => .ok (rec :: recs)
        | .fail e => .fail e
        | .panic => .panic
      | .fail e => .fail e
      | .panic => .panic

/-- `Convert` of `src/client.go` (lines 328-412).  `dest` is the caller's
slice (modelled with `cap == len`, as for a slice literal): the code
re-slices it to its capacity, appends the decoded structs after it, and
finally stores `slice[0:count]` with `count` = number of rows — on
success the caller sees `(dest ++ recs).take rows.length`.  On `fail` or
`panic` the final `Set` is never reached and the caller's slice is
unchanged. -/
def Convert (fields : List TableFieldSchema) (rows : List TableRow)
    (dest : List Rec) (shape : List Kind) : ConvResult (List Rec) :=
  match convertRows fields shape rows with
  | .ok recs => .ok ((dest ++ recs).take rows.length)
  | .fail e => .fail e
  | .panic => .panic

/-- The outer row loop of the later `Convert` revision
(src/client_test.go lines 704-779): identical except that after the
`NumField` check it also rejects `len(fields) != len(rows[i].F)` with
"Invalid fields", so the schema lookup can no longer be out of range. -/
def convertRows2 (fields : List TableFieldSchema) (shape : List Kind) :
    List TableRow → ConvResult (List Rec)
  | [] => .ok []
  | row :: rest =>
    if shape.length ≠ row.length then .fail .invalidResultElement
    else if fields.length ≠ row.length then .fail .invalidFields
    else
      match convertRow fields shape row with
      | .ok rec =>
        match convertRows2 fields shape rest with
        | .ok recs => .ok (rec :: recs)
        | .fail e => .fail e
        | .panic => .panic
      | .fail e => .fail e
      | .panic => .panic

/-- `Convert` of the later revision (src/client_test.go lines 693-782). -/
def Convert2 (fields : List TableFieldSchema) (rows : List TableRow)
    (dest : List Rec) (shape : List Kind) : ConvResult (List Rec) :=
  match convertRows2 fields shape rows with
  | .ok recs => .ok ((dest ++ recs).take rows.length)
  | .fail e => .fail e
  | .panic => .panic

/-! ## The result pager

The remote service is an oracle: the submission (`Jobs.Query.Do`, or
`Jobs.Insert` + first `GetQueryResults` on the job-configuration path) and
each later `Jobs.GetQueryResults(...).Do()` call return the next element of
a caller-supplied response list.  A run records the returned triple, the
messages sent to a non-nil `receiver` channel, and how many
`GetQueryResults` fetches were issued.  An oracle that runs out of
responses leaves `result = none`: the Go loop would simply issue another
fetch (`for { ... }` has no other exit). -/

/-- `bigquery.JobReference`: the fields the pager reads. -/
structure JobReference where
  projectId : String
  jobId : String
  deriving DecidableEq, Repr

/-- One service response (`bigquery.QueryResponse` /
`GetQueryResultsResponse`): the fields the pager reads.  `schema = none`
models a nil `Schema` pointer, `jobRef = none` a nil `JobReference`. -/
structure QueryResponse where
  jobComplete : Bool
  totalRows : ℕ
  rows : List TableRow
  schema : Option (List TableFieldSchema)
  jobRef : Option JobReference
  pageToken : String
  deriving DecidableEq, Repr

/-- A transport/service error, opaque to the client. -/
inductive SvcErr
  | notInitialized
  | transport (code : ℕ)
  deriving DecidableEq, Repr

/-- One message observed on the `receiver` channel, plus the channel
close.  `data` is a `ResponseData` send (`allRows` is the flag of the
`src/client.go` revision; the later revision has no such field and always
sends it as `false` here). -/
inductive Event
  | data (fields : List TableFieldSchema) (rows : List TableRow) (allRows : Bool)
  | errE (e : SvcErr)
  | close
  deriving DecidableEq, Repr

/-- Result of one pager run. -/
structure PagerRun where
  result : Option (Except SvcErr (List TableFieldSchema × List TableRow))
  events : List Event
  fetches : ℕ
  deriving DecidableEq, Repr

/-- Go `uint64(size)` for an `int64` page size (the `qr.TotalRows <=
uint64(size)` comparison). -/
def uint64OfInt64 (size : ℤ) : ℕ := (size % 2 ^ 64).toNat

/-- `if qrr.JobReference != nil { jobRef = qrr.JobReference; pageToken =
qrr.PageToken }` (loop bottom of both revisions). -/
def nextRef (qrr : QueryResponse) (jr : JobReference) (pt : String) :
    JobReference × String :=
  match qrr.jobRef with
  | some j => (j, qrr.pageToken)
  | none => (jr, pt)

/-- The `for { ... }` fetch loop shared verbatim by `retrieveRows`
(src/client.go lines 164-209) and `retrieveRowsWithJobConfig` (lines
271-316): fetch, abort on error (sending it when streaming); when
`JobComplete`, append the page's rows and (streaming) send the accumulated
rows; terminate when additionally `uint64(len(rows)) >= qrr.TotalRows`,
sending the accumulated rows once more with `AllRows = true`; otherwise
refresh the job reference and page token when the response carries one. -/
def pagerLoop (streaming : Bool) (rows : List TableRow)
    (jobRef : JobReference) (pageToken : String) :
    List (Except SvcErr QueryResponse) → PagerRun
  | [] => ⟨none, [], 0⟩
  | .error e :: _ =>
    ⟨some (.error e), if streaming then [.errE e] else [], 1⟩
  | .ok qrr :: rest =>
    let resFields := qrr.schema.getD []
    if qrr.jobComplete then
      let rows1 := rows ++ qrr.rows
      let ev1 := if streaming then [Event.data resFields rows1 false] else []
      if qrr.totalRows ≤ rows1.length then
        ⟨some (.ok (resFields, rows1)),
         ev1 ++ (if streaming then [Event.data resFields rows1 true] else []), 1⟩
      else
        let n := nextRef qrr jobRef pageToken
        let t := pagerLoop streaming rows1 n.1 n.2 rest
        ⟨t.result, ev1 ++ t.events, t.fetches + 1⟩
    else
      let n := nextRef qrr jobRef pageToken
      let t := pagerLoop streaming rows n.1 n.2 rest
      ⟨t.result, t.events, t.fetches + 1⟩

/-- `retrieveRows` of `src/client.go` (lines 120-210).  `svc` is the
`getService` outcome, `first` the `Jobs.Query(...).Do()` outcome.  When the
first response has `JobComplete` and `TotalRows <= uint64(size)` it is
terminal: one `AllRows` send, no `GetQueryResults` call.  (On that fast
path the code dereferences `qr.Schema`; a nil schema would be a nil-pointer
panic in Go — oracle responses used on it below always carry a schema.
Likewise a nil `qr.JobReference` entering the loop is not exercised.) -/
def retrieveRows (streaming : Bool) (svc : Except SvcErr Unit)
    (first : Except SvcErr QueryResponse)
    (rest : List (Except SvcErr QueryResponse)) (size : ℤ) : PagerRun :=
  match svc with
  | .error e => ⟨some (.error e), if streaming then [.errE e] else [], 0⟩
  | .ok _ =>
    match first with
    | .error e => ⟨some (.error e), if streaming then [.errE e] else [], 0⟩
    | .ok qr =>
      if qr.jobComplete ∧ qr.totalRows ≤ uint64OfInt64 size then
        ⟨some (.ok (qr.schema.getD [], qr.rows)),
         if streaming then [Event.data (qr.schema.getD []) qr.rows true] else [], 0⟩
      else
        pagerLoop streaming qr.rows (qr.jobRef.getD ⟨"", ""⟩) qr.pageToken rest

/-- `retrieveRowsWithJobConfig` of `src/client.go` (lines 212-317): a job
insert (whose failure is returned WITHOUT a receiver send — lines 239-242),
a first `GetQueryResults`, the same fast path, then the same loop seeded
with the inserted job's reference. -/
def retrieveRowsWithJobConfig (streaming : Bool) (svc : Except SvcErr Unit)
    (insert : Except SvcErr JobReference)
    (first : Except SvcErr QueryResponse)
    (rest : List (Except SvcErr QueryResponse)) (size : ℤ) : PagerRun :=
  match svc with
  | .error e => ⟨some (.error e), if streaming then [.errE e] else [], 0⟩
  | .ok _ =>
    match insert with
    | .error e => ⟨some (.error e), [], 0⟩
    | .ok jobRef =>
      match first with
      | .error e => ⟨some (.error e), if streaming then [.errE e] else [], 0⟩
      | .ok qr =>
        if qr.jobComplete ∧ qr.totalRows ≤ uint64OfInt64 size then
          ⟨some (.ok (qr.schema.getD [], qr.rows)),
           if streaming then [Event.data (qr.schema.getD []) qr.rows true] else [], 0⟩
        else
          pagerLoop streaming qr.rows jobRef qr.pageToken rest

/-- `JobConfiguration` of `src/client.go`: its contents shape the job
request only; the pager's control flow never reads them. -/
structure JobConfiguration where
  allowLargeResults : Bool
  tempTableName : String
  writeDisposition : String
  createDisposition : String
  deriving DecidableEq, Repr

/-- `defaultPageSize` (src/client.go line 19). -/
def defaultPageSize : ℤ := 5000

/-- Result of one `Client.Query` call: the returned `error`, the caller's
destination slice afterwards, and how many remote calls were made
(job insert + first results fetch + loop fetches; none at all when the
job-configuration branch is not taken). -/
structure QueryRun where
  retErr : Option SvcErr
  dest : List Rec
  svcCalls : ℕ
  deriving DecidableEq, Repr

/-- `Client.Query` of `src/client.go` (lines 106-118), run against the
oracle.  `fields`/`rows` start as nil and are assigned ONLY inside
`if c.JobConfig != nil`; there is no branch calling `retrieveRows`.  The
return value of `Convert` is discarded (line 116) and `nil` is returned.
A `Convert` panic would propagate in Go; no claim below reaches one
through `Query`. -/
def clientQuery (jobConfig : Option JobConfiguration) (svc : Except SvcErr Unit)
    (insert : Except SvcErr JobReference)
    (first : Except SvcErr QueryResponse)
    (rest : List (Except SvcErr QueryResponse))
    (dest : List Rec) (shape : List Kind) : QueryRun :=
  match jobConfig with
  | none =>
    -- fields and rows remain nil; err remains nil; Convert(nil, nil, result)
    let c := Convert [] [] dest shape
    ⟨none, (match c with | .ok d => d | _ => dest), 0⟩
  | some _ =>
    let run := retrieveRowsWithJobConfig false svc insert first rest defaultPageSize
    let calls :=
      match svc, insert with
      | .error _, _ => 0
      | .ok _, .error _ => 1
      | .ok _, .ok _ => 2 + run.fetches
    match run.result with
    | some (.error e) => ⟨some e, dest, calls⟩
    | some (.ok (fields, rows)) =>
      let c := Convert fields rows dest shape
      ⟨none, (match c with | .ok d => d | _ => dest), calls⟩
    | none => ⟨none, dest, calls⟩

/-- The fetch loop of the later revision's `retrieveRows`
(src/client_test.go lines 523-565): the running count is `rowCount`; rows
are accumulated in `rows` only when the receiver is nil, and each complete
page is sent as it arrives when streaming; on termination the channel is
closed; on a fetch error the error is sent and the function returns
WITHOUT closing the channel. -/
def pagerLoop2 (streaming : Bool) (rowCount : ℕ) (rows : List TableRow)
    (jobRef : JobReference) (pageToken : String) :
    List (Except SvcErr QueryResponse) → PagerRun
  | [] => ⟨none, [], 0⟩
  | .error e :: _ =>
    ⟨some (.error e), if streaming then [.errE e] else [], 1⟩
  | .ok qrr :: rest =>
    let resFields := qrr.schema.getD []
    if qrr.jobComplete then
      let rowCount1 := rowCount + qrr.rows.length
      let rows1 := if streaming then rows else rows ++ qrr.rows
      let ev1 := if streaming then [Event.data resFields qrr.rows false] else []
      if qrr.totalRows ≤ rowCount1 then
        ⟨some (.ok (resFields, rows1)),
         ev1 ++ (if streaming then [Event.close] else []), 1⟩
      else
        let n := nextRef qrr jobRef pageToken
        let t := pagerLoop2 streaming rowCount1 rows1 n.1 n.2 rest
        ⟨t.result, ev1 ++ t.events, t.fetches + 1⟩
    else
      let n := nextRef qrr jobRef pageToken
      let t := pagerLoop2 streaming rowCount rows n.1 n.2 rest
      ⟨t.result, t.events, t.fetches + 1⟩

/-- `retrieveRows` of the later revision (src/client_test.go lines
467-566).  Fast path: send the page, then `close(receiver)`.  Otherwise
the loop is seeded with `rowCount = len(qr.Rows)` when the first response
is complete (sending that page when streaming), else 0.  Service and
query errors are sent without a close. -/
def retrieveRows2 (streaming : Bool) (svc : Except SvcErr Unit)
    (first : Except SvcErr QueryResponse)
    (rest : List (Except SvcErr QueryResponse)) (size : ℤ) : PagerRun :=
  match svc with
  | .error e => ⟨some (.error e), if streaming then [.errE e] else [], 0⟩
  | .ok _ =>
    match first with
    | .error e => ⟨some (.error e), if streaming then [.errE e] else [], 0⟩
    | .ok qr =>
      let qrFields := qr.schema.getD []
      if qr.jobComplete ∧ qr.totalRows ≤ uint64OfInt64 size then
        ⟨some (.ok (qrFields, qr.rows)),
         if streaming then [Event.data qrFields qr.rows false, Event.close] else [], 0⟩
      else
        let rowCount := if qr.jobComplete then qr.rows.length else 0
        let rows0 := if qr.jobComplete ∧ ¬streaming then qr.rows else []
        let ev0 :=
          if qr.jobComplete ∧ streaming then [Event.data qrFields qr.rows false] else []
        let t := pagerLoop2 streaming rowCount rows0 (qr.jobRef.getD ⟨"", ""⟩)
          qr.pageToken rest
        ⟨t.result, ev0 ++ t.events, t.fetches⟩

/-- Spec-side restatement of the pager termination rule (spec §4.1 step 4 /
claim C2): walking the response list with a running delivered-row count
(grown only by complete pages), the index of the first response with
`completion = true` and running count ≥ that response's total-row count. -/
def stopIndex (acc : ℕ) : List QueryResponse → Option ℕ
  | [] => none
  | r :: rs =>
    let acc1 := if r.jobComplete then acc + r.rows.length else acc
    if r.jobComplete ∧ r.totalRows ≤ acc1 then some 0
    else (stopIndex acc1 rs).map (· + 1)

/-! ## Concrete fixtures used by the theorems below -/

/-- A first response that is already terminal: complete, 3 total rows
(spec §8, pager scenario A: `totalRows = 3`, page size 5000). -/
def exFastQr : QueryResponse :=
  { jobComplete := true, totalRows := 3,
    rows := [[some "a".toList], [some "b".toList], [some "c".toList]],
    schema := some [⟨"STRING"⟩], jobRef := some ⟨"p", "j"⟩, pageToken := "" }

/-- A first response whose job is not yet complete. -/
def exIncompleteQr : QueryResponse :=
  { jobComplete := false, totalRows := 10, rows := [], schema := none,
    jobRef := some ⟨"p", "j"⟩, pageToken := "tok" }

/-- A fetched page that is complete but short of its own total-row count:
1 row delivered, 10 reported. -/
def exShortQr : QueryResponse :=
  { jobComplete := true, totalRows := 10, rows := [[some "a".toList]],
    schema := some [⟨"STRING"⟩], jobRef := some ⟨"p", "j"⟩, pageToken := "t2" }

/-- A terminal response whose single row holds a malformed INTEGER cell. -/
def exBadIntQr : QueryResponse :=
  { jobComplete := true, totalRows := 1, rows := [[some "abc".toList]],
    schema := some [⟨"INTEGER"⟩], jobRef := none, pageToken := "" }

/-- Some job configuration (its contents never steer the pager). -/
def exJobConfig : JobConfiguration :=
  { allowLargeResults := true, tempTableName := "tmp",
    writeDisposition := "WRITE_TRUNCATE", createDisposition := "CREATE_IF_NEEDED" }

/-! ## Claim theorems -/

/-- C1.  `Client.Query` on a client with no job configuration performs no
remote call at all — the inline-query path (`retrieveRows`) is never
invoked — returns `nil`, and leaves the caller's destination empty, even
though `retrieveRows` run against the same oracle would have delivered the
complete 3-row result set.  This refutes the claim that the synchronous
query operation submits the query through the inline path and delivers the
accumulated rows: `src/client.go` line 110 only assigns
`fields, rows` inside `if c.JobConfig != nil`, and no other branch exists. -/
theorem clientQuery_skips_inline_path :
    clientQuery none (.ok ()) (.ok ⟨"p", "j"⟩) (.ok exFastQr) [] [] [.string] =
      ⟨none, [], 0⟩ ∧
    (retrieveRows false (.ok ()) (.ok exFastQr) [] defaultPageSize).result =
      some (.ok ([⟨"STRING"⟩], exFastQr.rows)) := by
  decide

/-- C3.  A malformed INTEGER cell makes `Convert` abort the whole batch
with the `strconv` parse error, leaving the destination slice unchanged
(no partial record) — but `Client.Query` (line 116 of `src/client.go`)
discards `Convert`'s return value and returns `nil`, so the decode error
never reaches the synchronous caller. -/
theorem clientQuery_discards_decode_error :
    Convert [⟨"INTEGER"⟩] [[some "abc".toList]] [[.vInt 99]] [.int64] =
      .fail .numSyntax ∧
    clientQuery (some exJobConfig) (.ok ()) (.ok ⟨"p", "j"⟩) (.ok exBadIntQr) []
      [[.vInt 99]] [.int64] = ⟨none, [[.vInt 99]], 2⟩ := by
  decide

/-- C4.  `convertExpornent "1.422943323461E9"` computes
`int64(1.422943323461 * math.Pow10(9))` = 1422943323 — epoch seconds,
truncated — not the 1422943323461 milliseconds that the claim, the
function's own doc comment ("converted to unixtime milli seconds") and the
repository's `TestConvert` assertion require. -/
theorem convertExpornent_returns_seconds_not_millis :
    convertExpornent "1.422943323461E9".toList = .ok 1422943323 ∧
    (1422943323 : ℤ) ≠ 1422943323461 := by
  decide

/-- C6.  An INTEGER column decoded into a 32-bit destination field fails
with "Invalid elememt type": the `case reflect.Int, Int8, Int16, Int64`
list in `src/client.go` line 361 omits `reflect.Int32`, although the
function's own doc comment promises `INTEGER -> int, int8, int16, int32,
int64`.  The same cell into an `int64` field succeeds, isolating the
missing width as the only difference. -/
theorem convert_INTEGER_int32_rejected :
    Convert [⟨"INTEGER"⟩] [[some "26".toList]] [] [.int32] =
      .fail .invalidElementType ∧
    Convert [⟨"INTEGER"⟩] [[some "26".toList]] [] [.int64] =
      .ok [[.vInt 26]] := by
  decide

/-- C7 counterexample.  When an earlier row fails to decode (STRING column
into an `int64` field) and only a later row has the wrong cell count,
`Convert` returns "Invalid elememt type" — not the ShapeMismatch error
"Invalid result element" the claim requires for every input containing an
arity-mismatched row. -/
theorem convert_shape_mismatch_preempted :
    Convert [⟨"STRING"⟩] [[some "x".toList], []] [] [.int64] =
      .fail .invalidElementType ∧
    ConvErr.invalidElementType ≠ ConvErr.invalidResultElement := by
  decide

/-- C9 counterexample.  Streaming run of the later revision's
`retrieveRows` (the only revision that ever closes the sink): the first
response is incomplete, the next fetch fails.  The error is sent as the
only (hence final) sink message, and the channel is never closed —
refuting "the error value is delivered ... before the channel is
closed". -/
theorem retrieveRows2_error_leaves_sink_open :
    (retrieveRows2 true (.ok ()) (.ok exIncompleteQr) [.error (.transport 7)]
      5000).events = [.errE (.transport 7)] ∧
    Event.close ∉ (retrieveRows2 true (.ok ()) (.ok exIncompleteQr)
      [.error (.transport 7)] 5000).events := by
  decide

/-- `lastIdx` finds nothing exactly when the character is absent
(Go: `strings.LastIndex` returns -1). -/
theorem lastIdx_eq_none (c : Char) (s : List Char) : lastIdx c s = none ↔ c ∉ s := by
  induction s with
  | nil => simp [lastIdx]
  | cons a t ih =>
    cases h : lastIdx c t with
    | some j =>
      have hct : c ∈ t := by
        by_contra hc
        exact absurd (ih.mpr hc) (by simp [h])
      simp [lastIdx, h, hct]
    | none =>
      have hct : c ∉ t := ih.mp h
      by_cases hac : a = c
      · simp [lastIdx, h, hac]
      · simp [lastIdx, h, hac, hct]
        exact fun hca => hac hca.symm

/-- `lastIdx` of the last occurrence: when `c` does not occur in `suf`,
the last occurrence in `pre ++ c :: suf` is at index `pre.length`. -/
theorem lastIdx_append (c : Char) (pre suf : List Char) (h : c ∉ suf) :
    lastIdx c (pre ++ c :: suf) = some pre.length := by
  induction pre with
  | nil => simp [lastIdx, (lastIdx_eq_none c suf).mpr h]
  | cons a t ih => simp [lastIdx, ih]

/-- C5.  `convertExpornent` fails with "Invalid timestamp format" on every
input without an `E` (the first `strings.LastIndex` check) and on every
input in which no decimal point precedes the (last) `E` (the second
check, applied to the prefix before it) — both checks run before any
numeric parsing. -/
theorem convertExpornent_rejects_missing_E_or_dot :
    ∀ s : List Char,
      (('E' : Char) ∉ s → convertExpornent s = .error .invalidTimestampFormat) ∧
      (∀ pre suf, s = pre ++ 'E' :: suf → ('E' : Char) ∉ suf →
        ('.' : Char) ∉ pre →
        convertExpornent s = .error .invalidTimestampFormat) := by
  intro s
  constructor
  · intro h
    unfold convertExpornent
    rw [(lastIdx_eq_none _ _).mpr h]
  · intro pre suf hs hE hdot
    subst hs
    simp only [convertExpornent, lastIdx_append _ _ _ hE, List.take_left,
      (lastIdx_eq_none _ _).mpr hdot]

/-- C5 witness: the two documented rejections, obtained from the theorem. -/
theorem convertExpornent_rejects_witness :
    convertExpornent "26".toList = .error .invalidTimestampFormat ∧
    convertExpornent "1E9".toList = .error .invalidTimestampFormat :=
  ⟨(convertExpornent_rejects_missing_E_or_dot "26".toList).1 (by decide),
   (convertExpornent_rejects_missing_E_or_dot "1E9".toList).2
     ['1'] ['9'] (by decide) (by decide) (by decide)⟩

/-- Decoding a row of nil cells: every cell is skipped before the schema
is ever consulted, each field keeping its zero value. -/
theorem convertRowAux_nulls (fields : List TableFieldSchema) :
    ∀ (shape : List Kind) (j : ℕ),
      convertRowAux fields j (shape.zip (List.replicate shape.length none)) =
        .ok (shape.map zeroValue) := by
  intro shape
  induction shape with
  | nil => intro j; rfl
  | cons k ks ih =>
    intro j
    have h2 := ih (j + 1)
    simp only [List.zip] at h2
    simp only [List.length_cons, List.replicate_succ, List.zip,
      List.zipWith_cons_cons, convertRowAux, convertCell, h2, List.map_cons]

/-- C8.  A nil/absent cell is skipped for every declared column type (the
failed `V.(string)` assertion `continue`s before `fields[j].Type` is even
read): the destination field keeps its zero value and no error arises.
In particular a row of only nil cells decodes, without error, to the
all-zero record, whatever the schema holds. -/
theorem convert_null_cells_leave_zero :
    ∀ (fields : List TableFieldSchema) (shape : List Kind),
      (∀ (j : ℕ) (k : Kind), convertCell fields j k none = .ok (zeroValue k)) ∧
      Convert fields [List.replicate shape.length none] [] shape =
        .ok [shape.map zeroValue] := by
  intro fields shape
  refine ⟨fun j k => rfl, ?_⟩
  unfold Convert convertRows
  simp [convertRow, convertRowAux_nulls fields shape 0, convertRows]

/-- `convertRows` cannot succeed once any row has the wrong cell count:
every row is arity-checked when the loop reaches it, and the loop only
ends early by returning an error or panicking. -/
theorem convertRows_not_ok (fields : List TableFieldSchema) (shape : List Kind) :
    ∀ rows : List TableRow, (∃ r ∈ rows, r.length ≠ shape.length) →
      ∀ out, convertRows fields shape rows ≠ .ok out := by
  intro rows
  induction rows with
  | nil =>
    rintro ⟨r, hr, _⟩
    cases hr
  | cons a rs ih =>
    rintro ⟨r, hr, hlen⟩ out
    unfold convertRows
    by_cases hsh : shape.length ≠ a.length
    · simp [hsh]
    · have hsa : shape.length = a.length := not_ne_iff.mp hsh
      rw [if_neg hsh]
      have hrs : r ∈ rs := by
        rcases List.mem_cons.mp hr with h1 | h1
        · exact absurd hsa.symm (h1 ▸ hlen)
        · exact h1
      cases hcr : convertRow fields shape a with
      | ok rec =>
        cases hcrs : convertRows fields shape rs with
        | ok recs => exact absurd hcrs (ih ⟨r, hrs, hlen⟩ recs)
        | fail e => simp
        | panic => simp
      | fail e => simp
      | panic => simp

/-- When every row before the first arity mismatch decodes cleanly, the
mismatch is what the loop reaches first and "Invalid result element" is
returned. -/
theorem convertRows_shape_mismatch (fields : List TableFieldSchema) (shape : List Kind) :
    ∀ rows : List TableRow, (∃ r ∈ rows, r.length ≠ shape.length) →
      (∀ r ∈ rows.takeWhile (fun r => r.length == shape.length),
        ∃ v, convertRow fields shape r = .ok v) →
      convertRows fields shape rows = .fail .invalidResultElement := by
  intro rows
  induction rows with
  | nil =>
    rintro ⟨r, hr, _⟩
    cases hr
  | cons a rs ih =>
    rintro ⟨r, hr, hlen⟩ hpre
    unfold convertRows
    by_cases hsh : shape.length ≠ a.length
    · simp [hsh]
    · have hsa : shape.length = a.length := not_ne_iff.mp hsh
      rw [if_neg hsh]
      have hrs : r ∈ rs := by
        rcases List.mem_cons.mp hr with h1 | h1
        · exact absurd hsa.symm (h1 ▸ hlen)
        · exact h1
      have htw : (a :: rs).takeWhile (fun r => r.length == shape.length) =
          a :: rs.takeWhile (fun r => r.length == shape.length) := by
        simp [List.takeWhile_cons, hsa]
      obtain ⟨v, hv⟩ := hpre a (htw ▸ List.mem_cons_self a _)
      rw [hv]
      have hpre2 : ∀ r ∈ rs.takeWhile (fun r => r.length == shape.length),
          ∃ v, convertRow fields shape r = .ok v := by
        intro x hx
        exact hpre x (htw ▸ List.mem_cons_of_mem a hx)
      rw [ih ⟨r, hrs, hlen⟩ hpre2]

/-- C7 (amended).  Whenever any row's cell count differs from the
destination record's field count, `Convert` never succeeds — no decoded
records are delivered and the caller's destination is untouched — and it
fails with the ShapeMismatch error "Invalid result element" provided every
row before the first mismatched one decodes cleanly (an earlier row's own
decode error is returned instead, as the counterexample shows). -/
theorem convert_fails_on_shape_mismatch :
    ∀ (fields : List TableFieldSchema) (shape : List Kind) (dest : List Rec)
      (rows : List TableRow), (∃ r ∈ rows, r.length ≠ shape.length) →
      (∀ out, Convert fields rows dest shape ≠ .ok out) ∧
      ((∀ r ∈ rows.takeWhile (fun r => r.length == shape.length),
          ∃ v, convertRow fields shape r = .ok v) →
        Convert fields rows dest shape = .fail .invalidResultElement) := by
  intro fields shape dest rows hbad
  constructor
  · intro out
    unfold Convert
    cases hcr : convertRows fields shape rows with
    | ok recs => exact absurd hcr (convertRows_not_ok fields shape rows hbad recs)
    | fail e => simp
    | panic => simp
  · intro hpre
    unfold Convert
    rw [convertRows_shape_mismatch fields shape rows hbad hpre]

/-- C7 witness: one well-shaped decodable row followed by an empty row
against a one-field destination — `Convert` fails with "Invalid result
element" and succeeds on nothing. -/
theorem convert_fails_on_shape_mismatch_witness :
    Convert [⟨"STRING"⟩] [[some "x".toList], []] [] [.string] =
      .fail .invalidResultElement ∧
    ∀ out, Convert [⟨"STRING"⟩] [[some "x".toList], []] [] [.string] ≠ .ok out := by
  have h := convert_fails_on_shape_mismatch [⟨"STRING"⟩] [.string] []
    [[some "x".toList], []] ⟨[], by decide, by decide⟩
  refine ⟨h.2 ?_, h.1⟩
  intro r hr
  have htw : ([[some "x".toList], []] : List TableRow).takeWhile
      (fun r => r.length == ([Kind.string] : List Kind).length) =
      [[some "x".toList]] := by decide
  rw [htw] at hr
  have : r = [some "x".toList] := List.mem_singleton.mp hr
  subst this
  exact ⟨[.vString "x".toList], by decide⟩

/-- The fetch loop walks its oracle responses and returns at exactly the
index computed by `stopIndex` (completion flag set and running delivered
count at least the response's total), having issued one fetch per consumed
response; with no such index it consumes the whole oracle without
terminating. -/
theorem pagerLoop_stop (streaming : Bool) :
    ∀ (rs : List QueryResponse) (rows : List TableRow) (jr : JobReference)
      (pt : String),
      (∀ k, stopIndex rows.length rs = some k →
        (pagerLoop streaming rows jr pt (rs.map .ok)).fetches = k + 1 ∧
        ∃ x, (pagerLoop streaming rows jr pt (rs.map .ok)).result = some (.ok x)) ∧
      (stopIndex rows.length rs = none →
        (pagerLoop streaming rows jr pt (rs.map .ok)).fetches = rs.length ∧
        (pagerLoop streaming rows jr pt (rs.map .ok)).result = none) := by
  intro rs
  induction rs with
  | nil =>
    intro rows jr pt
    constructor
    · intro k hk
      simp [stopIndex] at hk
    · intro _
      exact ⟨rfl, rfl⟩
  | cons r rs ih =>
    intro rows jr pt
    cases hc : r.jobComplete with
    | true =>
      by_cases hterm : r.totalRows ≤ rows.length + r.rows.length
      · constructor
        · intro k hk
          simp only [stopIndex, hc, if_true, true_and] at hk
          rw [if_pos hterm] at hk
          injection hk with hk0
          subst hk0
          refine ⟨?_, ⟨(r.schema.getD [], rows ++ r.rows), ?_⟩⟩
          · simp only [List.map_cons, pagerLoop, hc, if_true, List.length_append]
            rw [if_pos hterm]
          · simp only [List.map_cons, pagerLoop, hc, if_true, List.length_append]
            rw [if_pos hterm]
        · intro hk
          simp only [stopIndex, hc, if_true, true_and] at hk
          rw [if_pos hterm] at hk
          simp at hk
      · have ih1 := ih (rows ++ r.rows) (nextRef r jr pt).1 (nextRef r jr pt).2
        have hlen : (rows ++ r.rows).length = rows.length + r.rows.length :=
          List.length_append rows r.rows
        constructor
        · intro k hk
          simp only [stopIndex, hc, if_true, true_and] at hk
          rw [if_neg hterm] at hk
          rcases Option.map_eq_some'.mp hk with ⟨k1, hk1, hkk⟩
          have hkk2 : k1 + 1 = k := hkk
          rw [← hlen] at hk1
          obtain ⟨hf, x, hx⟩ := ih1.1 k1 hk1
          constructor
          · simp only [List.map_cons, pagerLoop, hc, if_true, List.length_append]
            rw [if_neg hterm]
            simp only [hf]
            omega
          · refine ⟨x, ?_⟩
            simp only [List.map_cons, pagerLoop, hc, if_true, List.length_append]
            rw [if_neg hterm]
            simpa using hx
        · intro hk
          simp only [stopIndex, hc, if_true, true_and] at hk
          rw [if_neg hterm] at hk
          have hk1 : stopIndex (rows ++ r.rows).length rs = none := by
            rw [hlen]
            exact Option.map_eq_none'.mp hk
          obtain ⟨hf, hx⟩ := ih1.2 hk1
          constructor
          · simp only [List.map_cons, pagerLoop, hc, if_true, List.length_append]
            rw [if_neg hterm]
            simp only [hf, List.length_cons]
          · simp only [List.map_cons, pagerLoop, hc, if_true, List.length_append]
            rw [if_neg hterm]
            simpa using hx
    | false =>
      have ih1 := ih rows (nextRef r jr pt).1 (nextRef r jr pt).2
      constructor
      · intro k hk
        simp only [stopIndex, hc, Bool.false_eq_true, false_and, if_false] at hk
        rcases Option.map_eq_some'.mp hk with ⟨k1, hk1, hkk⟩
        have hkk2 : k1 + 1 = k := hkk
        obtain ⟨hf, x, hx⟩ := ih1.1 k1 hk1
        constructor
        · simp only [List.map_cons, pagerLoop, hc, Bool.false_eq_true, if_false]
          simp only [hf]
          omega
        · refine ⟨x, ?_⟩
          simp only [List.map_cons, pagerLoop, hc, Bool.false_eq_true, if_false]
          simpa using hx
      · intro hk
        simp only [stopIndex, hc, Bool.false_eq_true, false_and, if_false] at hk
        obtain ⟨hf, hx⟩ := ih1.2 (Option.map_eq_none'.mp hk)
        constructor
        · simp only [List.map_cons, pagerLoop, hc, Bool.false_eq_true, if_false, hf,
            List.length_cons]
        · simp only [List.map_cons, pagerLoop, hc, Bool.false_eq_true, if_false]
          simpa using hx

/-- C2.  The pager's stopping rule, on `retrieveRows` run against any
oracle: (fast path) a first response with `JobComplete` and
`TotalRows <= uint64(size)` is terminal — one terminal page, zero
`GetQueryResults` fetches; (loop) otherwise, over any error-free response
sequence, the pager issues exactly `k + 1` fetches and terminates
successfully precisely when `stopIndex` — completion flag true and running
delivered count ≥ that response's total — first holds at response `k`, and
consumes every response without terminating when it never holds;
(no early stop) in particular a completion flag alone, with the running
count still below the response's total, leaves the pager unterminated. -/
theorem retrieveRows_stop_rule :
    ∀ (streaming : Bool) (qr : QueryResponse) (size : ℤ),
      (∀ rest, qr.jobComplete = true → qr.totalRows ≤ uint64OfInt64 size →
        retrieveRows streaming (.ok ()) (.ok qr) rest size =
          ⟨some (.ok (qr.schema.getD [], qr.rows)),
           if streaming then [Event.data (qr.schema.getD []) qr.rows true] else [],
           0⟩) ∧
      (∀ rs : List QueryResponse,
        ¬(qr.jobComplete = true ∧ qr.totalRows ≤ uint64OfInt64 size) →
        (∀ k, stopIndex qr.rows.length rs = some k →
          (retrieveRows streaming (.ok ()) (.ok qr) (rs.map .ok) size).fetches =
            k + 1 ∧
          ∃ x, (retrieveRows streaming (.ok ()) (.ok qr) (rs.map .ok) size).result =
            some (.ok x)) ∧
        (stopIndex qr.rows.length rs = none →
          (retrieveRows streaming (.ok ()) (.ok qr) (rs.map .ok) size).fetches =
            rs.length ∧
          (retrieveRows streaming (.ok ()) (.ok qr) (rs.map .ok) size).result =
            none)) ∧
      (∀ r : QueryResponse,
        ¬(qr.jobComplete = true ∧ qr.totalRows ≤ uint64OfInt64 size) →
        r.jobComplete = true → qr.rows.length + r.rows.length < r.totalRows →
        (retrieveRows streaming (.ok ()) (.ok qr) [.ok r] size).fetches = 1 ∧
        (retrieveRows streaming (.ok ()) (.ok qr) [.ok r] size).result = none) := by
  intro streaming qr size
  have hfast : ∀ rest, qr.jobComplete = true → qr.totalRows ≤ uint64OfInt64 size →
      retrieveRows streaming (.ok ()) (.ok qr) rest size =
        ⟨some (.ok (qr.schema.getD [], qr.rows)),
         if streaming then [Event.data (qr.schema.getD []) qr.rows true] else [],
         0⟩ := by
    intro rest h1 h2
    simp only [retrieveRows]
    rw [if_pos (And.intro h1 h2)]
  have hloop : ∀ rs : List QueryResponse,
      ¬(qr.jobComplete = true ∧ qr.totalRows ≤ uint64OfInt64 size) →
      (∀ k, stopIndex qr.rows.length rs = some k →
        (retrieveRows streaming (.ok ()) (.ok qr) (rs.map .ok) size).fetches =
          k + 1 ∧
        ∃ x, (retrieveRows streaming (.ok ()) (.ok qr) (rs.map .ok) size).result =
          some (.ok x)) ∧
      (stopIndex qr.rows.length rs = none →
        (retrieveRows streaming (.ok ()) (.ok qr) (rs.map .ok) size).fetches =
          rs.length ∧
        (retrieveRows streaming (.ok ()) (.ok qr) (rs.map .ok) size).result =
          none) := by
    intro rs hno
    have hrw : retrieveRows streaming (.ok ()) (.ok qr) (rs.map .ok) size =
        pagerLoop streaming qr.rows (qr.jobRef.getD ⟨"", ""⟩) qr.pageToken
          (rs.map .ok) := by
      simp only [retrieveRows]
      rw [if_neg hno]
    have h := pagerLoop_stop streaming rs qr.rows (qr.jobRef.getD ⟨"", ""⟩)
      qr.pageToken
    rw [hrw]
    exact h
  refine ⟨hfast, hloop, ?_⟩
  intro r hno h1 h2
  have hsi : stopIndex qr.rows.length [r] = none := by
    simp only [stopIndex, h1, if_true, true_and]
    rw [if_neg (by omega : ¬r.totalRows ≤ qr.rows.length + r.rows.length)]
    rfl
  exact (hloop [r] hno).2 hsi

/-- C2 witness: pager scenario A (first response complete, 3 total rows,
page size 5000 → terminal, zero fetches) and the no-early-stop case (a
complete response delivering 1 of 10 rows → one fetch made, pagination
not terminated). -/
theorem retrieveRows_stop_rule_witness :
    retrieveRows false (.ok ()) (.ok exFastQr) [] 5000 =
      ⟨some (.ok ([⟨"STRING"⟩], exFastQr.rows)), [], 0⟩ ∧
    (retrieveRows false (.ok ()) (.ok exIncompleteQr) [.ok exShortQr] 5000).fetches
      = 1 ∧
    (retrieveRows false (.ok ()) (.ok exIncompleteQr) [.ok exShortQr] 5000).result
      = none := by
  refine ⟨?_, ?_⟩
  · exact ((retrieveRows_stop_rule false exFastQr 5000).1 [] (by decide)
      (by decide)).trans (by decide)
  · exact (retrieveRows_stop_rule false exIncompleteQr 5000).2.2 exShortQr
      (by decide) (by decide) (by decide)

/-- The `src/client.go` fetch loop never closes its receiver channel: no
`close(receiver)` statement exists anywhere in that revision. -/
theorem pagerLoop_no_close :
    ∀ (rest : List (Except SvcErr QueryResponse)) (streaming : Bool)
      (rows : List TableRow) (jr : JobReference) (pt : String),
      Event.close ∉ (pagerLoop streaming rows jr pt rest).events := by
  intro rest
  induction rest with
  | nil => intro streaming rows jr pt; simp [pagerLoop]
  | cons h t ih =>
    intro streaming rows jr pt
    cases h with
    | error e => cases streaming <;> simp [pagerLoop]
    | ok qrr =>
      cases hc : qrr.jobComplete with
      | true =>
        by_cases hterm : qrr.totalRows ≤ rows.length + qrr.rows.length
        · cases streaming <;> simp [pagerLoop, hc, List.length_append, hterm]
        · cases streaming <;> simp [pagerLoop, hc, List.length_append, hterm, ih]
      | false =>
        cases streaming <;> simp [pagerLoop, hc, ih]

/-- Channel events of the later revision's fetch loop, streaming mode: a
successful run's last event is the close and nothing before it is a close;
a failed run ends with the error message and contains no close at all. -/
theorem pagerLoop2_events :
    ∀ (rest : List (Except SvcErr QueryResponse)) (rc : ℕ)
      (rows : List TableRow) (jr : JobReference) (pt : String),
      (∀ x, (pagerLoop2 true rc rows jr pt rest).result = some (.ok x) →
        ∃ evs, (pagerLoop2 true rc rows jr pt rest).events =
          evs ++ [Event.close] ∧ Event.close ∉ evs) ∧
      (∀ e, (pagerLoop2 true rc rows jr pt rest).result = some (.error e) →
        ∃ evs, (pagerLoop2 true rc rows jr pt rest).events =
          evs ++ [Event.errE e] ∧
          Event.close ∉ (pagerLoop2 true rc rows jr pt rest).events) := by
  intro rest
  induction rest with
  | nil =>
    intro rc rows jr pt
    constructor
    · intro x hx
      simp [pagerLoop2] at hx
    · intro e he
      simp [pagerLoop2] at he
  | cons h t ih =>
    intro rc rows jr pt
    cases h with
    | error e =>
      constructor
      · intro x hx
        simp [pagerLoop2] at hx
      · intro e2 he
        simp only [pagerLoop2, Option.some.injEq, Except.error.injEq] at he
        subst he
        exact ⟨[], by simp [pagerLoop2], by simp [pagerLoop2]⟩
    | ok qrr =>
      cases hc : qrr.jobComplete with
      | true =>
        by_cases hterm : qrr.totalRows ≤ rc + qrr.rows.length
        · constructor
          · intro x hx
            refine ⟨[Event.data (qrr.schema.getD []) qrr.rows false], ?_, by simp⟩
            simp [pagerLoop2, hc, hterm]
          · intro e he
            simp [pagerLoop2, hc, hterm] at he
        · have ih1 := ih (rc + qrr.rows.length) rows
            (nextRef qrr jr pt).1 (nextRef qrr jr pt).2
          constructor
          · intro x hx
            simp only [pagerLoop2, hc, if_true] at hx
            rw [if_neg hterm] at hx
            obtain ⟨evs, hev, hni⟩ := ih1.1 x hx
            refine ⟨Event.data (qrr.schema.getD []) qrr.rows false :: evs, ?_, ?_⟩
            · simp only [pagerLoop2, hc, if_true]
              rw [if_neg hterm]
              simp [hev]
            · simp [hni]
          · intro e he
            simp only [pagerLoop2, hc, if_true] at he
            rw [if_neg hterm] at he
            obtain ⟨evs, hev, hni⟩ := ih1.2 e he
            refine ⟨Event.data (qrr.schema.getD []) qrr.rows false :: evs, ?_, ?_⟩
            · simp only [pagerLoop2, hc, if_true]
              rw [if_neg hterm]
              simp [hev]
            · simp only [pagerLoop2, hc, if_true]
              rw [if_neg hterm]
              simp [hni]
      | false =>
        have ih1 := ih rc rows (nextRef qrr jr pt).1 (nextRef qrr jr pt).2
        constructor
        · intro x hx
          simp only [pagerLoop2, hc, Bool.false_eq_true, if_false] at hx
          obtain ⟨evs, hev, hni⟩ := ih1.1 x hx
          refine ⟨evs, ?_, hni⟩
          simp only [pagerLoop2, hc, Bool.false_eq_true, if_false]
          simpa using hev
        · intro e he
          simp only [pagerLoop2, hc, Bool.false_eq_true, if_false] at he
          obtain ⟨evs, hev, hni⟩ := ih1.2 e he
          refine ⟨evs, ?_, ?_⟩
          · simp only [pagerLoop2, hc, Bool.false_eq_true, if_false]
            simpa using hev
          · simp only [pagerLoop2, hc, Bool.false_eq_true, if_false]
            simpa using hni

/-- C9 (amended).  Streaming close semantics as implemented: in the later
revision's `retrieveRows` (the only revision containing `close(receiver)`)
a run that exhausts the result set closes the sink exactly once, after the
last page message; a run that hits a transport/service failure delivers
the error as the final sink message but never closes the sink.  The
`src/client.go` revision never closes the sink at all. -/
theorem retrieveRows2_close_semantics :
    (∀ (svc : Except SvcErr Unit) (first : Except SvcErr QueryResponse)
      (rest : List (Except SvcErr QueryResponse)) (size : ℤ)
      (x : List TableFieldSchema × List TableRow),
      (retrieveRows2 true svc first rest size).result = some (.ok x) →
      ∃ evs, (retrieveRows2 true svc first rest size).events =
        evs ++ [Event.close] ∧ Event.close ∉ evs) ∧
    (∀ (svc : Except SvcErr Unit) (first : Except SvcErr QueryResponse)
      (rest : List (Except SvcErr QueryResponse)) (size : ℤ) (e : SvcErr),
      (retrieveRows2 true svc first rest size).result = some (.error e) →
      ∃ evs, (retrieveRows2 true svc first rest size).events =
        evs ++ [Event.errE e] ∧
        Event.close ∉ (retrieveRows2 true svc first rest size).events) ∧
    (∀ (streaming : Bool) (svc : Except SvcErr Unit)
      (first : Except SvcErr QueryResponse)
      (rest : List (Except SvcErr QueryResponse)) (size : ℤ),
      Event.close ∉ (retrieveRows streaming svc first rest size).events) := by
  refine ⟨?_, ?_, ?_⟩
  · intro svc first rest size x hx
    match svc with
    | .error e => simp [retrieveRows2] at hx
    | .ok _ =>
      match first with
      | .error e => simp [retrieveRows2] at hx
      | .ok qr =>
        by_cases hfp : qr.jobComplete = true ∧ qr.totalRows ≤ uint64OfInt64 size
        · refine ⟨[Event.data (qr.schema.getD []) qr.rows false], ?_, by simp⟩
          simp [retrieveRows2, hfp]
        · cases hc : qr.jobComplete with
          | true =>
            simp only [retrieveRows2, hc, if_true, true_and, and_true,
              not_and, not_le] at hx hfp ⊢
            rw [if_neg (by intro hle; exact absurd hle (by simpa using hfp))] at hx ⊢
            simp only [and_true, if_true, not_true, false_and, if_false] at hx ⊢
            obtain ⟨evs, hev, hni⟩ := (pagerLoop2_events rest _ _ _ _).1 x
              (by simpa using hx)
            refine ⟨Event.data (qr.schema.getD []) qr.rows false :: evs, ?_, ?_⟩
            · simp [hev]
            · simp [hni]
          | false =>
            simp only [retrieveRows2, hc, Bool.false_eq_true, false_and,
              if_false] at hx ⊢
            obtain ⟨evs, hev, hni⟩ := (pagerLoop2_events rest _ _ _ _).1 x
              (by simpa using hx)
            refine ⟨evs, ?_, hni⟩
            simpa using hev
  · intro svc first rest size e he
    match svc with
    | .error e2 =>
      simp only [retrieveRows2, Option.some.injEq, Except.error.injEq] at he
      subst he
      exact ⟨[], by simp [retrieveRows2], by simp [retrieveRows2]⟩
    | .ok _ =>
      match first with
      | .error e2 =>
        simp only [retrieveRows2, Option.some.injEq, Except.error.injEq] at he
        subst he
        exact ⟨[], by simp [retrieveRows2], by simp [retrieveRows2]⟩
      | .ok qr =>
        by_cases hfp : qr.jobComplete = true ∧ qr.totalRows ≤ uint64OfInt64 size
        · simp [retrieveRows2, hfp] at he
        · cases hc : qr.jobComplete with
          | true =>
            simp only [retrieveRows2, hc, if_true, true_and, and_true,
              not_and, not_le] at he hfp ⊢
            rw [if_neg (by intro hle; exact absurd hle (by simpa using hfp))] at he ⊢
            simp only [and_true, if_true] at he ⊢
            obtain ⟨evs, hev, hni⟩ := (pagerLoop2_events rest _ _ _ _).2 e
              (by simpa using he)
            refine ⟨Event.data (qr.schema.getD []) qr.rows false :: evs, ?_, ?_⟩
            · simp [hev]
            · simp [hni]
          | false =>
            simp only [retrieveRows2, hc, Bool.false_eq_true, false_and,
              if_false] at he ⊢
            obtain ⟨evs, hev, hni⟩ := (pagerLoop2_events rest _ _ _ _).2 e
              (by simpa using he)
            refine ⟨evs, ?_, ?_⟩
            · simpa using hev
            · simpa using hni
  · intro streaming svc first rest size
    match svc with
    | .error e => cases streaming <;> simp [retrieveRows]
    | .ok _ =>
      match first with
      | .error e => cases streaming <;> simp [retrieveRows]
      | .ok qr =>
        by_cases hfp : qr.jobComplete = true ∧ qr.totalRows ≤ uint64OfInt64 size
        · cases streaming <;> simp [retrieveRows, hfp]
        · simp only [retrieveRows]
          rw [if_neg hfp]
          exact pagerLoop_no_close rest streaming qr.rows _ _

/-- C9 witness: a terminal streaming run closes after its only page; a
failing streaming run ends with the error message and no close; the
`src/client.go` pager emits no close. -/
theorem retrieveRows2_close_semantics_witness :
    (∃ evs, (retrieveRows2 true (.ok ()) (.ok exFastQr) [] 5000).events =
      evs ++ [Event.close] ∧ Event.close ∉ evs) ∧
    (∃ evs, (retrieveRows2 true (.ok ()) (.ok exIncompleteQr)
        [.error (.transport 7)] 5000).events = evs ++ [Event.errE (.transport 7)] ∧
      Event.close ∉ (retrieveRows2 true (.ok ()) (.ok exIncompleteQr)
        [.error (.transport 7)] 5000).events) ∧
    Event.close ∉ (retrieveRows true (.ok ()) (.ok exFastQr) [] 5000).events :=
  ⟨retrieveRows2_close_semantics.1 (.ok ()) (.ok exFastQr) [] 5000
      ([⟨"STRING"⟩], exFastQr.rows) (by decide),
   retrieveRows2_close_semantics.2.1 (.ok ()) (.ok exIncompleteQr)
      [.error (.transport 7)] 5000 (.transport 7) (by decide),
   retrieveRows2_close_semantics.2.2 true (.ok ()) (.ok exFastQr) [] 5000⟩

/-- C10.  The `src/client.go` `Convert` checks each row's cell count only
against the destination struct's field count; with an empty schema, a
one-cell row and a one-field destination it reaches `fields[0]` out of
range (a Go index-out-of-range panic).  The later revision rejects the
same input with "Invalid fields". -/
theorem convert_schema_bound_unchecked :
    Convert [] [[some "x".toList]] [] [.string] = .panic ∧
    Convert2 [] [[some "x".toList]] [] [.string] = .fail .invalidFields := by
  decide

end BqClient
